import Mathlib

/-!
Verification of the binary-edit overlay and viewport engine of the `gex`
terminal hex editor (sources: `src/gex_khashl/file_handling.c`,
`src/gex_khashl/gex.h`, and the keyboard manager translation unit containing
`handle_edit_keys`, `k_left`, `k_right`, `handle_scrolling_movement`).

The C program keeps its state in globals (`app`, `hex`, `ascii`); here that
state is made explicit.  The khashl hash table `app.edmap` (offset ↦ pending
byte, unique keys) is embedded as an association list with unique keys; the
mmapped file `app.map` of `app.fsize` bytes is a `List Nat` of byte values;
C `int` cursor fields, which are nonnegative in every state the program
constructs, are embedded as `Nat`, and keystroke codes as `Int`.
-/

set_option autoImplicit false
set_option maxRecDepth 8192

namespace Gex

/-! ## EditOverlay: the khashl map `app.edmap` as an association list -/

/-- The pending-edit map `app.edmap`: absolute file offset ↦ replacement byte.
Association list with unique keys (khashl keys are unique). -/
abbrev Overlay := List (Nat × Nat)

/-- Lookup, modelling `slot = kh_get(app.edmap, key)` followed by
`kh_val(app.edmap, slot)` when `slot != kh_end` (absent ↦ `none`). -/
def ovGet : Overlay → Nat → Option Nat
  | [], _ => none
  | (k, v) :: rest, key => if k = key then some v else ovGet rest key

/-- Insert-or-overwrite, modelling `slot = kh_put(app.edmap, key, &ret);
kh_val(app.edmap, slot) = val`. -/
def ovSet : Overlay → Nat → Nat → Overlay
  | [], key, val => [(key, val)]
  | (k, v) :: rest, key, val =>
    if k = key then (k, val) :: rest else (k, v) :: ovSet rest key val

/-- Deletion, modelling `slot = kh_get(...); if (slot != kh_end) kh_del(...)`. -/
def ovDel : Overlay → Nat → Overlay
  | [], _ => []
  | (k, v) :: rest, key => if k = key then rest else (k, v) :: ovDel rest key

/-- Number of pending edits, `kh_size(app.edmap)`. -/
def ovCount (ov : Overlay) : Nat := ov.length

/-- The keys (offsets) of the overlay. -/
def ovKeys (ov : Overlay) : List Nat := ov.map Prod.fst

/-- Key uniqueness, an invariant of the khashl table. -/
def ovNodup (ov : Overlay) : Prop := (ovKeys ov).Nodup

instance (ov : Overlay) : Decidable (ovNodup ov) := by
  unfold ovNodup; infer_instance

theorem ovGet_eq_none_of_not_mem {ov : Overlay} {key : Nat}
    (h : key ∉ ovKeys ov) : ovGet ov key = none := by
  induction ov with
  | nil => rfl
  | cons p rest ih =>
    simp only [ovKeys, List.map_cons, List.mem_cons, not_or] at h
    cases p with
    | mk k v =>
      simp only [ovGet]
      rw [if_neg (by simpa using fun e => h.1 e.symm)]
      exact ih h.2

theorem ovGet_ovSet_self (ov : Overlay) (key val : Nat) :
    ovGet (ovSet ov key val) key = some val := by
  induction ov with
  | nil => simp [ovSet, ovGet]
  | cons p rest ih =>
    cases p with
    | mk k v =>
      by_cases hk : k = key
      · simp [ovSet, ovGet, hk]
      · simp [ovSet, ovGet, hk, ih]

theorem ovGet_ovDel_self {ov : Overlay} (h : ovNodup ov) (key : Nat) :
    ovGet (ovDel ov key) key = none := by
  induction ov with
  | nil => rfl
  | cons p rest ih =>
    cases p with
    | mk k v =>
      simp only [ovNodup, ovKeys, List.map_cons, List.nodup_cons] at h
      by_cases hk : k = key
      · simp only [ovDel, if_pos hk]
        exact ovGet_eq_none_of_not_mem (by rw [← hk]; exact h.1)
      · simp only [ovDel, if_neg hk, ovGet, if_neg hk]
        exact ih h.2

/-! ## ByteStore structural mutation: `file_insert` / `file_delete`
(src/gex_khashl/file_handling.c) -/

/-- Byte-level effect of `file_insert(f_offset, nbytes)`: stream-copy the head
`[0, offset)`, write `count` zero bytes, stream-copy the tail `[offset, size)`
into a temp file, then rename it over the original.  The head copy reads
`offset` bytes and fails at EOF, so success requires `offset ≤ size`; on any
failure the temp file is unlinked and the original is untouched (`none`). -/
def file_insert (file : List Nat) (offset count : Nat) : Option (List Nat) :=
  if offset ≤ file.length then
    some (file.take offset ++ List.replicate count 0 ++ file.drop offset)
  else none

/-- Byte-level effect of `file_delete(f_offset, nbytes)`: stream-copy the head
`[0, offset)`, `lseek` past the deleted range, and copy the remaining tail
`size - (offset + count)` bytes (nothing when that is not positive). -/
def file_delete (file : List Nat) (offset count : Nat) : Option (List Nat) :=
  if offset ≤ file.length then
    some (file.take offset ++ file.drop (offset + count))
  else none

/-- C6: `file_insert(offset, count)` on a file of size `N` succeeds for
`offset ≤ N` and yields a file of size `N + count` that is the original head
`[0, offset)`, then `count` zero bytes at `[offset, offset+count)`, then the
original tail `[offset, N)` shifted to `[offset+count, N+count)`. -/
theorem file_insert_spec (file : List Nat) (offset count : Nat)
    (h : offset ≤ file.length) :
    ∃ res, file_insert file offset count = some res ∧
      res.length = file.length + count ∧
      (∀ i, i < offset → res.getD i 0 = file.getD i 0) ∧
      (∀ i, offset ≤ i → i < offset + count → res.getD i 0 = 0) ∧
      (∀ i, offset + count ≤ i → i < file.length + count →
        res.getD i 0 = file.getD (i - count) 0) := by
  have hA : (file.take offset).length = offset := by
    simp [Nat.min_eq_left h]
  have hAB : (file.take offset ++ List.replicate count 0).length = offset + count := by
    simp [hA]
  refine ⟨_, by rw [file_insert, if_pos h], ?_, ?_, ?_, ?_⟩
  · simp [List.length_append, Nat.min_eq_left h]
    omega
  · intro i hi
    rw [List.getD_append _ _ _ _ (by omega)]
    rw [List.getD_append _ _ _ _ (by omega)]
    rw [List.getD_eq_getElem?_getD, List.getElem?_take_of_lt hi,
      ← List.getD_eq_getElem?_getD]
  · intro i h1 h2
    rw [List.getD_append _ _ _ _ (by omega)]
    rw [List.getD_append_right _ _ _ _ (by omega), hA]
    rw [List.getD_eq_getElem?_getD, List.getElem?_replicate, if_pos (by omega)]
    rfl
  · intro i h1 h2
    rw [List.getD_append_right _ _ _ _ (by omega), hAB]
    rw [List.getD_eq_getElem?_getD, List.getElem?_drop,
      ← List.getD_eq_getElem?_getD]
    congr 1
    omega

/-- C6 witness at a concrete input. -/
theorem file_insert_spec_witness :
    (5 : Nat) ≤ ([10, 11, 12, 13, 14, 15, 16, 17, 18, 19] : List Nat).length ∧
    ∃ res, file_insert [10, 11, 12, 13, 14, 15, 16, 17, 18, 19] 5 3 = some res ∧
      res.length = ([10, 11, 12, 13, 14, 15, 16, 17, 18, 19] : List Nat).length + 3 ∧
      (∀ i, i < 5 → res.getD i 0 =
        ([10, 11, 12, 13, 14, 15, 16, 17, 18, 19] : List Nat).getD i 0) ∧
      (∀ i, 5 ≤ i → i < 5 + 3 → res.getD i 0 = 0) ∧
      (∀ i, 5 + 3 ≤ i → i < ([10, 11, 12, 13, 14, 15, 16, 17, 18, 19] : List Nat).length + 3 →
        res.getD i 0 = ([10, 11, 12, 13, 14, 15, 16, 17, 18, 19] : List Nat).getD (i - 3) 0) :=
  ⟨by decide, file_insert_spec [10, 11, 12, 13, 14, 15, 16, 17, 18, 19] 5 3 (by decide)⟩

/-- C4: for `offset ≤ N`, a successful `file_insert(offset, k)` followed by a
successful `file_delete(offset, k)` restores the original file byte-for-byte. -/
theorem file_insert_then_delete (file : List Nat) (offset count : Nat)
    (h : offset ≤ file.length) :
    (file_insert file offset count).bind
      (fun f => file_delete f offset count) = some file := by
  rw [file_insert, if_pos h, Option.some_bind, file_delete]
  have hlt : (file.take offset).length = offset := by
    simp [Nat.min_eq_left h]
  have hmid : ((file.take offset ++ List.replicate count 0) : List Nat).length
      = offset + count := by
    simp [hlt]
  rw [if_pos (by simp [hlt])]
  have h1 : (file.take offset ++ List.replicate count 0 ++ file.drop offset).take offset
      = file.take offset := by
    rw [List.take_append_of_le_length (by omega)]
    rw [List.take_append_of_le_length (by omega)]
    exact List.take_of_length_le (by omega)
  have h2 : (file.take offset ++ List.replicate count 0 ++ file.drop offset).drop
      (offset + count) = file.drop offset :=
    List.drop_left' hmid
  rw [h1, h2, List.take_append_drop]

/-- C4 witness at a concrete input. -/
theorem file_insert_then_delete_witness :
    (2 : Nat) ≤ ([7, 8, 9, 10] : List Nat).length ∧
    (file_insert [7, 8, 9, 10] 2 5).bind
      (fun f => file_delete f 2 5) = some [7, 8, 9, 10] :=
  ⟨by decide, file_insert_then_delete [7, 8, 9, 10] 2 5 (by decide)⟩

/-! ## Keystroke classification and nibble conversion
(hex/ascii helper translation unit) -/

/-- C `isprint` on keystroke codes: printable characters are 32–126. -/
def isprint (k : Int) : Prop := 32 ≤ k ∧ k ≤ 126

instance (k : Int) : Decidable (isprint k) := by
  unfold isprint; infer_instance

/-- The hex-digit guard of `handle_edit_keys`:
`(k >= '0' && k <= '9') || (k >= 'A' && k <= 'F') || (k >= 'a' && k <= 'f')`. -/
def is_hex_digit (k : Int) : Prop :=
  (48 ≤ k ∧ k ≤ 57) ∨ (65 ≤ k ∧ k ≤ 70) ∨ (97 ≤ k ∧ k ≤ 102)

instance (k : Int) : Decidable (is_hex_digit k) := by
  unfold is_hex_digit; infer_instance

/-- `HELPER_nib_to_hexval`: decode a hex-digit character to its value 0–15.
The fall-through branch pops an error dialog and executes `assert(0)`,
aborting the program; it is embedded as `none`. -/
def HELPER_nib_to_hexval (c : Int) : Option Nat :=
  if 48 ≤ c ∧ c ≤ 57 then some (c - 48).toNat
  else if 65 ≤ c ∧ c ≤ 70 then some ((c - 65).toNat + 10)
  else if 97 ≤ c ∧ c ≤ 102 then some ((c - 97).toNat + 10)
  else none

/-- `apply_hinib_to_byte`: `*byte = (*byte & 0x0F) | (HELPER_nib_to_hexval(hi) << 4)`
(`none` when the program aborts inside `HELPER_nib_to_hexval`). -/
def apply_hinib_to_byte (b : Nat) (hi : Int) : Option Nat :=
  (HELPER_nib_to_hexval hi).map (fun v => (b &&& 0x0F) ||| (v <<< 4))

/-- `apply_lonib_to_byte`: `*byte = (*byte & 0xF0) | HELPER_nib_to_hexval(lo)`. -/
def apply_lonib_to_byte (b : Nat) (lo : Int) : Option Nat :=
  (HELPER_nib_to_hexval lo).map (fun v => (b &&& 0xF0) ||| v)

theorem hexval_of_hex_digit {k : Int} (h : is_hex_digit k) :
    ∃ v, HELPER_nib_to_hexval k = some v := by
  unfold HELPER_nib_to_hexval
  rcases h with ⟨h1, h2⟩ | ⟨h1, h2⟩ | ⟨h1, h2⟩
  · exact ⟨_, by rw [if_pos ⟨h1, h2⟩]⟩
  · exact ⟨_, by rw [if_neg (by omega), if_pos ⟨h1, h2⟩]⟩
  · exact ⟨_, by rw [if_neg (by omega), if_neg (by omega), if_pos ⟨h1, h2⟩]⟩

theorem hex_digit_of_hexval {k : Int} {v : Nat}
    (h : HELPER_nib_to_hexval k = some v) : is_hex_digit k := by
  unfold HELPER_nib_to_hexval at h
  unfold is_hex_digit
  split_ifs at h with h1 h2 h3
  · exact Or.inl h1
  · exact Or.inr (Or.inl h2)
  · exact Or.inr (Or.inr h3)

/-! ## Cursor / edit state

The global state touched by the cursor-movement and edit functions:
`app.in_hex`, `app.map` (+ `app.fsize`), `app.edmap`, `app.lastkey`,
`app.lasteditkey`, the cursor fields of `hex`, and `ascii.width`.
The C cursor fields are `int`s that stay nonnegative in every state the
program constructs; they are embedded as `Nat`. -/

structure EdState where
  in_hex : Bool        -- app.in_hex
  is_hinib : Bool      -- hex.is_hinib
  cur_row : Nat        -- hex.cur_row
  cur_digit : Nat      -- hex.cur_digit
  cur_col : Nat        -- hex.cur_col
  v_start : Nat        -- hex.v_start
  width : Nat          -- ascii.width (bytes per row)
  file : List Nat      -- app.map; app.fsize = file.length
  edmap : Overlay      -- app.edmap
  lastkey : Int        -- app.lastkey
  lasteditkey : Int    -- app.lasteditkey
deriving DecidableEq

/-- `row_digit_to_offset(row, digit) = (row * ascii.width) + digit`. -/
def row_digit_to_offset (width row digit : Nat) : Nat := row * width + digit

/-- ncurses `KEY_RIGHT` (octal 0405). -/
def KEY_RIGHT : Int := 261

/-- `k_left()`. -/
def k_left (s : EdState) : EdState :=
  if s.in_hex then
    if !s.is_hinib then
      { s with cur_col := s.cur_col - 1, is_hinib := true }
    else if s.cur_digit > 0 then
      { s with cur_col := s.cur_col - 2, cur_digit := s.cur_digit - 1,
               is_hinib := false }
    else
      { s with cur_col := (s.width - 1) * 3, cur_digit := s.width - 1,
               is_hinib := true }
  else
    if s.cur_digit > 0 then
      { s with cur_col := s.cur_col - 3, cur_digit := s.cur_digit - 1,
               is_hinib := true }
    else
      { s with cur_col := (s.width - 1) * 3, cur_digit := s.width - 1,
               is_hinib := true }

/-- `k_right()`. -/
def k_right (s : EdState) : EdState :=
  if s.in_hex then
    if s.is_hinib then
      { s with cur_col := s.cur_col + 1, is_hinib := false }
    else if s.cur_digit < s.width - 1 then
      { s with cur_col := s.cur_col + 2, cur_digit := s.cur_digit + 1,
               is_hinib := true }
    else
      { s with cur_col := 0, cur_digit := 0, is_hinib := true }
  else
    if s.cur_digit < s.width - 1 then
      { s with cur_col := s.cur_col + 3, cur_digit := s.cur_digit + 1,
               is_hinib := true }
    else
      { s with cur_col := 0, cur_digit := 0, is_hinib := true }

/-- `handle_in_screen_movement(KEY_RIGHT)`, the only way `handle_edit_keys`
invokes it: records `app.lastkey` and performs `k_right` (`update_cursor` is
rendering-only). -/
def handle_in_screen_movement_right (s : EdState) : EdState :=
  k_right { s with lastkey := KEY_RIGHT }

/-- The absolute file offset `handle_edit_keys` edits:
`hex.v_start + row_digit_to_offset(hex.cur_row, hex.cur_digit)`. -/
def edit_offset (s : EdState) : Nat :=
  s.v_start + row_digit_to_offset s.width s.cur_row s.cur_digit

/-- The `full_edit_byte` initialization of `handle_edit_keys`: the overlay
value when an entry exists, otherwise the underlying file byte. -/
def effective_byte (ov : Overlay) (file : List Nat) (off : Nat) : Nat :=
  match ovGet ov off with
  | some v => v
  | none => file.getD off 0

/-- `handle_edit_keys(k)`: the Edit operation.  `idx` is inlined as
`edit_offset`, `full_edit_byte` as `effective_byte`, `full_file_byte` as
`s.file.getD (edit_offset s) 0`; the `app.lasteditkey = k` assignment made
once on `valid_edit` is merged into each mutating branch.  Returns `none`
exactly when the program would abort inside `HELPER_nib_to_hexval`
(unreachable, see the guard), `some s'` otherwise.  Popup / redraw calls are
rendering-only. -/
def handle_edit_keys (s : EdState) (k : Int) : Option EdState :=
  -- if we're not within the bounds of the file then no edits
  if s.file.length ≤ edit_offset s then some s
  else if s.in_hex = false then  -- ascii pane
    if isprint k then
      some (handle_in_screen_movement_right
        (if k = (s.file.getD (edit_offset s) 0 : Int) then
          { s with edmap := ovDel s.edmap (edit_offset s), lasteditkey := k }
        else
          { s with edmap := ovSet s.edmap (edit_offset s) (k.toNat % 256),
                   lasteditkey := k }))
    else some s
  else  -- hex pane
    if is_hex_digit k then
      match (if s.is_hinib then
               apply_hinib_to_byte (effective_byte s.edmap s.file (edit_offset s)) k
             else
               apply_lonib_to_byte (effective_byte s.edmap s.file (edit_offset s)) k) with
      | none => none
      | some newb =>
        some (handle_in_screen_movement_right
          (if newb = s.file.getD (edit_offset s) 0 then
            { s with edmap := ovDel s.edmap (edit_offset s), lasteditkey := k }
          else
            { s with edmap := ovSet s.edmap (edit_offset s) newb,
                     lasteditkey := k }))
    else some s

/-- The pending byte an Edit keystroke computes: in the ascii pane the key
itself (as an unsigned char); in the hex pane the incoming nibble combined
with the other nibble of the current effective byte. -/
def pending_edit_byte (s : EdState) (k : Int) : Option Nat :=
  if s.in_hex = false then
    if isprint k then some (k.toNat % 256) else none
  else
    if is_hex_digit k then
      (if s.is_hinib then
        apply_hinib_to_byte (effective_byte s.edmap s.file (edit_offset s)) k
       else
        apply_lonib_to_byte (effective_byte s.edmap s.file (edit_offset s)) k)
    else none

theorem edmap_k_right (s : EdState) : (k_right s).edmap = s.edmap := by
  unfold k_right
  split_ifs <;> rfl

theorem edmap_move_right (s : EdState) :
    (handle_in_screen_movement_right s).edmap = s.edmap := by
  unfold handle_in_screen_movement_right
  rw [edmap_k_right]

theorem file_k_right (s : EdState) : (k_right s).file = s.file := by
  unfold k_right
  split_ifs <;> rfl

theorem file_move_right (s : EdState) :
    (handle_in_screen_movement_right s).file = s.file := by
  unfold handle_in_screen_movement_right
  rw [file_k_right]

theorem handle_edit_keys_ascii (s : EdState) (k : Int)
    (hg : edit_offset s < s.file.length) (h2 : s.in_hex = false)
    (h3 : isprint k) :
    handle_edit_keys s k =
      some (handle_in_screen_movement_right
        (if k = (s.file.getD (edit_offset s) 0 : Int) then
          { s with edmap := ovDel s.edmap (edit_offset s), lasteditkey := k }
        else
          { s with edmap := ovSet s.edmap (edit_offset s) (k.toNat % 256),
                   lasteditkey := k })) := by
  unfold handle_edit_keys
  rw [if_neg (by omega), if_pos h2, if_pos h3]

theorem handle_edit_keys_hex (s : EdState) (k : Int) (newb : Nat)
    (hg : edit_offset s < s.file.length) (h2 : s.in_hex = true)
    (h4 : is_hex_digit k)
    (happ : (if s.is_hinib then
        apply_hinib_to_byte (effective_byte s.edmap s.file (edit_offset s)) k
      else
        apply_lonib_to_byte (effective_byte s.edmap s.file (edit_offset s)) k)
      = some newb) :
    handle_edit_keys s k =
      some (handle_in_screen_movement_right
        (if newb = s.file.getD (edit_offset s) 0 then
          { s with edmap := ovDel s.edmap (edit_offset s), lasteditkey := k }
        else
          { s with edmap := ovSet s.edmap (edit_offset s) newb,
                   lasteditkey := k })) := by
  unfold handle_edit_keys
  rw [if_neg (by omega), if_neg (by simp [h2]), if_pos h4, happ]

/-- C9: a keystroke whose cursor offset `v_start + row*width + digit` is at or
beyond the file size is rejected silently: `handle_edit_keys` returns before
touching the overlay, the cursor, or any other state, and raises no error. -/
theorem edit_beyond_eof_rejected (s : EdState) (k : Int)
    (h : s.file.length ≤ s.v_start + s.cur_row * s.width + s.cur_digit) :
    handle_edit_keys s k = some s := by
  unfold handle_edit_keys
  rw [if_pos (by unfold edit_offset row_digit_to_offset; omega)]

/-- Concrete state for the out-of-bounds witness: cursor on the second row of
a 2-wide grid over a 2-byte file (offset 2 = size). -/
def oobState : EdState :=
  { in_hex := true, is_hinib := true, cur_row := 1, cur_digit := 0,
    cur_col := 0, v_start := 0, width := 2, file := [65, 66],
    edmap := [(0, 1)], lastkey := 0, lasteditkey := 0 }

/-- C9 witness at a concrete input. -/
theorem edit_beyond_eof_rejected_witness :
    oobState.file.length ≤
      oobState.v_start + oobState.cur_row * oobState.width + oobState.cur_digit ∧
    handle_edit_keys oobState 48 = some oobState :=
  ⟨by decide, edit_beyond_eof_rejected oobState 48 (by decide)⟩

/-- C10: `handle_edit_keys` reaches `apply_hinib_to_byte` / `apply_lonib_to_byte`
(and so `HELPER_nib_to_hexval`) only behind the `'0'-'9'/'A'-'F'/'a'-'f'` guard,
so the decoder's popup-and-`assert(0)` branch is unreachable from the keyboard
edit path (the result is never `none`), and a non-hex keystroke in the hex pane
is ignored: the state is returned unchanged. -/
theorem hex_guard_protects_nibble_decode :
    (∀ (s : EdState) (k : Int), (handle_edit_keys s k).isSome = true) ∧
    (∀ (s : EdState) (k : Int), s.in_hex = true → ¬ is_hex_digit k →
      handle_edit_keys s k = some s) := by
  constructor
  · intro s k
    by_cases h1 : s.file.length ≤ edit_offset s
    · simp [handle_edit_keys, h1]
    · by_cases h2 : s.in_hex = false
      · by_cases h3 : isprint k
        · simp [handle_edit_keys, h1, h2, h3]
        · simp [handle_edit_keys, h1, h2, h3]
      · by_cases h4 : is_hex_digit k
        · obtain ⟨v, hv⟩ := hexval_of_hex_digit h4
          by_cases h5 : s.is_hinib = true
          · simp [handle_edit_keys, h1, h2, h4, h5, apply_hinib_to_byte, hv]
          · simp [handle_edit_keys, h1, h2, h4, h5, apply_lonib_to_byte, hv]
        · simp [handle_edit_keys, h1, h2, h4]
  · intro s k hhex hk
    by_cases h1 : s.file.length ≤ edit_offset s
    · simp [handle_edit_keys, h1]
    · simp [handle_edit_keys, h1, hhex, hk]

/-- Concrete in-bounds hex-pane state for the guard witness. -/
def hexPaneState : EdState :=
  { in_hex := true, is_hinib := true, cur_row := 0, cur_digit := 0,
    cur_col := 0, v_start := 0, width := 4, file := [0, 1],
    edmap := [], lastkey := 0, lasteditkey := 0 }

/-- C10 witness: the key `'k'` (107) is not a hex digit and is ignored. -/
theorem hex_guard_protects_nibble_decode_witness :
    hexPaneState.in_hex = true ∧ ¬ is_hex_digit 107 ∧
    handle_edit_keys hexPaneState 107 = some hexPaneState :=
  ⟨rfl, by decide,
   hex_guard_protects_nibble_decode.2 hexPaneState 107 rfl (by decide)⟩

/-- C1: an Edit keystroke at an in-bounds offset leaves an overlay entry there
iff the resulting pending byte differs from the underlying file byte; an edit
that reproduces the file byte deletes any existing entry instead. -/
theorem edit_overlay_consistency (s : EdState) (k : Int) (pb : Nat)
    (hnd : ovNodup s.edmap)
    (hin : edit_offset s < s.file.length)
    (hpb : pending_edit_byte s k = some pb) :
    ∃ s', handle_edit_keys s k = some s' ∧
      ovGet s'.edmap (edit_offset s) =
        (if pb = s.file.getD (edit_offset s) 0 then none else some pb) := by
  unfold pending_edit_byte at hpb
  by_cases h2 : s.in_hex = false
  · rw [if_pos h2] at hpb
    by_cases h3 : isprint k
    · rw [if_pos h3, Option.some_inj] at hpb
      obtain ⟨hk1, hk2⟩ := h3
      refine ⟨_, handle_edit_keys_ascii s k hin h2 ⟨hk1, hk2⟩, ?_⟩
      rw [edmap_move_right]
      by_cases heq : k = (s.file.getD (edit_offset s) 0 : Int)
      · rw [if_pos heq]
        rw [ovGet_ovDel_self hnd]
        rw [if_pos (by omega)]
      · rw [if_neg heq]
        rw [ovGet_ovSet_self]
        rw [if_neg (by omega), hpb]
    · rw [if_neg h3] at hpb
      exact absurd hpb (by simp)
  · have h2' : s.in_hex = true := by
      revert h2; cases s.in_hex <;> simp
    rw [if_neg h2] at hpb
    by_cases h4 : is_hex_digit k
    · rw [if_pos h4] at hpb
      refine ⟨_, handle_edit_keys_hex s k pb hin h2' h4 hpb, ?_⟩
      rw [edmap_move_right]
      by_cases heq : pb = s.file.getD (edit_offset s) 0
      · rw [if_pos heq, ovGet_ovDel_self hnd, if_pos heq]
      · rw [if_neg heq, ovGet_ovSet_self, if_neg heq]
    · rw [if_neg h4] at hpb
      exact absurd hpb (by simp)

/-- Concrete ascii-pane state for the overlay-consistency witness: the file
holds "AB", the cursor sits on offset 0 with a stale overlay entry, and the
keystroke 'A' (65) reverts the byte to its file value. -/
def asciiRevertState : EdState :=
  { in_hex := false, is_hinib := true, cur_row := 0, cur_digit := 0,
    cur_col := 0, v_start := 0, width := 2, file := [65, 66],
    edmap := [(0, 90)], lastkey := 0, lasteditkey := 0 }

/-- C1 witness: typing 'A' over a pending 'Z' edit at a byte that is already
'A' removes the overlay entry. -/
theorem edit_overlay_consistency_witness :
    ovNodup asciiRevertState.edmap ∧
    edit_offset asciiRevertState < asciiRevertState.file.length ∧
    pending_edit_byte asciiRevertState 65 = some 65 ∧
    ∃ s', handle_edit_keys asciiRevertState 65 = some s' ∧
      ovGet s'.edmap (edit_offset asciiRevertState) =
        (if 65 = asciiRevertState.file.getD (edit_offset asciiRevertState) 0
         then none else some 65) :=
  ⟨by decide, by decide, by decide,
   edit_overlay_consistency asciiRevertState 65 65 (by decide) (by decide)
     (by decide)⟩

theorem byte_and_f0_eq_shift (b : Nat) (h : b < 256) :
    b &&& 0xF0 = (b >>> 4) <<< 4 := by
  have hall : ∀ x : Fin 256, ((x : Nat) &&& 0xF0) = (((x : Nat) >>> 4) <<< 4) := by
    decide
  exact hall ⟨b, h⟩

/-- C2: a hex-pane edit with digit value `v` combines `v` with the *other*
nibble of the current effective byte `B` (overlay value if present, else the
file byte): high-nibble edits produce `(v <<< 4) ||| low_nibble B`, low-nibble
edits produce `(high_nibble B <<< 4) ||| v`, and that is the effective byte
visible at the offset afterwards. -/
theorem hex_edit_pending_byte (s : EdState) (k : Int) (v : Nat)
    (hnd : ovNodup s.edmap)
    (hhex : s.in_hex = true)
    (hv : HELPER_nib_to_hexval k = some v)
    (hin : edit_offset s < s.file.length)
    (hB : effective_byte s.edmap s.file (edit_offset s) < 256) :
    ∃ s', handle_edit_keys s k = some s' ∧
      effective_byte s'.edmap s'.file (edit_offset s) =
        (if s.is_hinib
         then (v <<< 4) ||| (effective_byte s.edmap s.file (edit_offset s) &&& 0xF)
         else ((effective_byte s.edmap s.file (edit_offset s) >>> 4) <<< 4) ||| v) := by
  set B := effective_byte s.edmap s.file (edit_offset s) with hBdef
  set newb : Nat :=
    (if s.is_hinib then (B &&& 0x0F) ||| (v <<< 4) else (B &&& 0xF0) ||| v)
    with hnewb
  have happ : (if s.is_hinib then
      apply_hinib_to_byte (effective_byte s.edmap s.file (edit_offset s)) k
    else
      apply_lonib_to_byte (effective_byte s.edmap s.file (edit_offset s)) k)
      = some newb := by
    by_cases h5 : s.is_hinib = true
    · simp [h5, apply_hinib_to_byte, hv, hnewb, hBdef]
    · simp at h5
      simp [h5, apply_lonib_to_byte, hv, hnewb, hBdef]
  refine ⟨_, handle_edit_keys_hex s k newb hin hhex (hex_digit_of_hexval hv) happ, ?_⟩
  have heff : effective_byte
      (handle_in_screen_movement_right
        (if newb = s.file.getD (edit_offset s) 0 then
          { s with edmap := ovDel s.edmap (edit_offset s), lasteditkey := k }
        else
          { s with edmap := ovSet s.edmap (edit_offset s) newb,
                   lasteditkey := k })).edmap
      s.file (edit_offset s) = newb := by
    rw [edmap_move_right]
    by_cases heq : newb = s.file.getD (edit_offset s) 0
    · rw [if_pos heq]
      unfold effective_byte
      rw [ovGet_ovDel_self hnd]
      exact heq.symm
    · rw [if_neg heq]
      unfold effective_byte
      rw [ovGet_ovSet_self]
  have hfile : (if newb = s.file.getD (edit_offset s) 0 then
      { s with edmap := ovDel s.edmap (edit_offset s), lasteditkey := k }
    else
      { s with edmap := ovSet s.edmap (edit_offset s) newb,
               lasteditkey := k }).file = s.file := by
    by_cases heq : newb = s.file.getD (edit_offset s) 0
    · rw [if_pos heq]
    · rw [if_neg heq]
  rw [file_move_right, hfile, heff]
  by_cases h5 : s.is_hinib = true
  · rw [hnewb, if_pos h5, if_pos h5, Nat.lor_comm]
  · simp only [Bool.not_eq_true] at h5
    rw [hnewb, if_neg (by simp [h5]), if_neg (by simp [h5]),
      byte_and_f0_eq_shift B hB]

/-- Concrete hex-pane state for the nibble-edit witness: file byte 0x41 at
offset 0, no pending edits, high-nibble keystroke '5'. -/
def hexNibState : EdState :=
  { in_hex := true, is_hinib := true, cur_row := 0, cur_digit := 0,
    cur_col := 0, v_start := 0, width := 4, file := [65, 66],
    edmap := [], lastkey := 0, lasteditkey := 0 }

/-- C2 witness: editing the high nibble of 0x41 with '5' yields effective
byte 0x51. -/
theorem hex_edit_pending_byte_witness :
    ovNodup hexNibState.edmap ∧
    hexNibState.in_hex = true ∧
    HELPER_nib_to_hexval 53 = some 5 ∧
    edit_offset hexNibState < hexNibState.file.length ∧
    effective_byte hexNibState.edmap hexNibState.file (edit_offset hexNibState) < 256 ∧
    ∃ s', handle_edit_keys hexNibState 53 = some s' ∧
      effective_byte s'.edmap s'.file (edit_offset hexNibState) =
        (if hexNibState.is_hinib
         then (5 <<< 4) |||
           (effective_byte hexNibState.edmap hexNibState.file (edit_offset hexNibState) &&& 0xF)
         else ((effective_byte hexNibState.edmap hexNibState.file (edit_offset hexNibState) >>> 4) <<< 4) ||| 5) :=
  ⟨by decide, rfl, by decide, by decide, by decide,
   hex_edit_pending_byte hexNibState 53 5 (by decide) rfl (by decide) (by decide)
     (by decide)⟩

/-- Concrete state for the column-wrap scenario: width 16, hex pane, cursor at
row 0, digit 0, high nibble. -/
def wrapState : EdState :=
  { in_hex := true, is_hinib := true, cur_row := 0, cur_digit := 0,
    cur_col := 0, v_start := 0, width := 16, file := List.replicate 32 0,
    edmap := [], lastkey := 0, lasteditkey := 0 }

/-- C7 counterexample: with width 16, Left from (row 0, digit 0, high nibble)
lands on digit 15 of the same row but on the HIGH nibble (`is_hinib = true`),
not the low nibble the claim states. -/
theorem k_left_wrap_counterexample :
    (k_left wrapState).cur_row = 0 ∧ (k_left wrapState).cur_digit = 15 ∧
    (k_left wrapState).is_hinib = true ∧
    ¬ ((k_left wrapState).is_hinib = false) := by
  decide

/-- C7 (amended): in the hex pane a Left move from the high nibble of digit 0
wraps to the HIGH nibble of the last digit of the row, leaving the row
unchanged; with width 16, Left from (row 0, digit 0, hi) yields
(row 0, digit 15, hi). -/
theorem k_left_wrap (s : EdState)
    (hhex : s.in_hex = true) (hhi : s.is_hinib = true) (hd : s.cur_digit = 0) :
    (k_left s).cur_row = s.cur_row ∧
    (k_left s).cur_digit = s.width - 1 ∧
    (k_left s).is_hinib = true ∧
    (k_left s).cur_col = (s.width - 1) * 3 := by
  unfold k_left
  rw [hhex, hhi]
  simp [hd]

/-- C7 (amended) witness at the concrete width-16 scenario state. -/
theorem k_left_wrap_witness :
    wrapState.in_hex = true ∧ wrapState.is_hinib = true ∧
    wrapState.cur_digit = 0 ∧
    ((k_left wrapState).cur_row = wrapState.cur_row ∧
     (k_left wrapState).cur_digit = wrapState.width - 1 ∧
     (k_left wrapState).is_hinib = true ∧
     (k_left wrapState).cur_col = (wrapState.width - 1) * 3) :=
  ⟨rfl, rfl, rfl, k_left_wrap wrapState rfl rfl rfl⟩

/-! ## Viewport scrolling (`handle_scrolling_movement`) -/

/-- The state `handle_scrolling_movement` mutates: `hex.v_start` and
`hex.cur_row`. -/
structure ScrollState where
  v_start : Nat
  cur_row : Nat
deriving DecidableEq

/-- The scrolling keys: `KEY_UP`, `KEY_DOWN`, `KEY_NPAGE`, `KEY_PPAGE`, and
`KEY_MOVE` carrying the offset typed into the goto popup. -/
inductive ScrollKey where
  | up
  | down
  | npage
  | ppage
  | move (answer : Nat)
deriving DecidableEq

/-- `handle_scrolling_movement(k)`; the fixed geometry is `width =
ascii.width`, `grid = hex.grid`, `height = hex.height`, `fsize = app.fsize`.
`update_cursor` / `update_all_windows` are rendering-only. -/
def handle_scrolling_movement (width grid height fsize : Nat)
    (s : ScrollState) : ScrollKey → ScrollState
  | .up =>
    if s.cur_row > 0 then { s with cur_row := s.cur_row - 1 }
    else if s.v_start > width then { s with v_start := s.v_start - width }
    else { s with v_start := 0 }
  | .down =>
    if s.cur_row < height - 1 then { s with cur_row := s.cur_row + 1 }
    -- if there's not enough file to fill the grid, stay put
    else if grid > fsize then { s with v_start := 0 }
    else if s.v_start + grid + width < fsize then
      { s with v_start := s.v_start + width }
    else { s with v_start := fsize - grid }
  | .npage =>
    if grid > fsize then { s with v_start := 0 }
    -- 2 grids of move to avoid half screens
    else if s.v_start + 2 * grid < fsize then { s with v_start := s.v_start + grid }
    else { s with v_start := fsize - grid }
  | .ppage =>
    if grid > fsize then { s with v_start := 0 }
    else if s.v_start > grid then { s with v_start := s.v_start - grid }
    else { s with v_start := 0 }
  | .move answer =>
    -- v_start takes the popup answer, then the BOUNDARY CHECKS clamp it
    if grid ≥ fsize then { s with v_start := 0 }
    else if answer + grid > fsize then { s with v_start := fsize - grid }
    else { s with v_start := answer }

/-- States reachable from the initial viewport (`hex.v_start = 0`, set when
the windows are created) by scrolling operations. -/
inductive ScrollReachable (width grid height fsize : Nat) : ScrollState → Prop where
  | init (r : Nat) : ScrollReachable width grid height fsize ⟨0, r⟩
  | step {s : ScrollState} (k : ScrollKey) :
      ScrollReachable width grid height fsize s →
      ScrollReachable width grid height fsize
        (handle_scrolling_movement width grid height fsize s k)

theorem scrollstate_upd_v (s : ScrollState) (x : Nat) :
    ScrollState.v_start { s with v_start := x } = x := rfl

theorem scrollstate_upd_r (s : ScrollState) (x : Nat) :
    ScrollState.v_start { s with cur_row := x } = s.v_start := rfl

/-- C5: every `v_start` reachable from the initial state by line-up/down,
page-up/down, and goto operations satisfies `v_start + grid ≤ size`, or
`grid > size` and `v_start = 0`. -/
theorem scroll_viewport_bounds (width grid height fsize : Nat) (s : ScrollState)
    (h : ScrollReachable width grid height fsize s) :
    s.v_start + grid ≤ fsize ∨ (grid > fsize ∧ s.v_start = 0) := by
  induction h with
  | init r =>
    rw [show (⟨0, r⟩ : ScrollState).v_start = 0 from rfl]
    omega
  | @step s k hs ih =>
    cases k with
    | up =>
      rw [show handle_scrolling_movement width grid height fsize s ScrollKey.up
          = (if s.cur_row > 0 then { s with cur_row := s.cur_row - 1 }
             else if s.v_start > width then { s with v_start := s.v_start - width }
             else { s with v_start := 0 }) from rfl]
      split_ifs <;>
        simp only [scrollstate_upd_v, scrollstate_upd_r, and_true] <;> omega
    | down =>
      rw [show handle_scrolling_movement width grid height fsize s ScrollKey.down
          = (if s.cur_row < height - 1 then { s with cur_row := s.cur_row + 1 }
             else if grid > fsize then { s with v_start := 0 }
             else if s.v_start + grid + width < fsize then
               { s with v_start := s.v_start + width }
             else { s with v_start := fsize - grid }) from rfl]
      split_ifs <;>
        simp only [scrollstate_upd_v, scrollstate_upd_r, and_true] <;> omega
    | npage =>
      rw [show handle_scrolling_movement width grid height fsize s ScrollKey.npage
          = (if grid > fsize then { s with v_start := 0 }
             else if s.v_start + 2 * grid < fsize then
               { s with v_start := s.v_start + grid }
             else { s with v_start := fsize - grid }) from rfl]
      split_ifs <;> simp only [scrollstate_upd_v, and_true] <;> omega
    | ppage =>
      rw [show handle_scrolling_movement width grid height fsize s ScrollKey.ppage
          = (if grid > fsize then { s with v_start := 0 }
             else if s.v_start > grid then { s with v_start := s.v_start - grid }
             else { s with v_start := 0 }) from rfl]
      split_ifs <;> simp only [scrollstate_upd_v, and_true] <;> omega
    | move answer =>
      rw [show handle_scrolling_movement width grid height fsize s
            (ScrollKey.move answer)
          = (if grid ≥ fsize then { s with v_start := 0 }
             else if answer + grid > fsize then { s with v_start := fsize - grid }
             else { s with v_start := answer }) from rfl]
      split_ifs <;> simp only [scrollstate_upd_v, and_true] <;> omega

/-- C5 witness: after one PageDown from the initial state (width 4, grid 16,
height 4, file size 100). -/
theorem scroll_viewport_bounds_witness :
    (handle_scrolling_movement 4 16 4 100 ⟨0, 0⟩ ScrollKey.npage).v_start + 16 ≤ 100 ∨
    (16 > 100 ∧ (handle_scrolling_movement 4 16 4 100 ⟨0, 0⟩ ScrollKey.npage).v_start = 0) :=
  scroll_viewport_bounds 4 16 4 100 _
    (ScrollReachable.step ScrollKey.npage (ScrollReachable.init 0))

/-! ## Saving pending edits (`save_changes`) -/

/-- User-visible outcome of `save_changes`. -/
inductive SaveSignal where
  | nothingToSave   -- popup "No changes made"
  | cancelled       -- confirmation declined
  | saved
deriving DecidableEq

/-- The sorted change array `save_changes` builds: entries copied out of the
hash table and ordered ascending by key (`qsort` with `cmp_key`; keys are
unique, so the sorted sequence is unique and insertion sort yields it too). -/
def entries_sorted_by_offset (ov : Overlay) : Overlay :=
  List.insertionSort (fun a b => a.1 ≤ b.1) ov

/-- The apply loop of `save_changes`:
`for i: app.map[arr[i].key] = arr[i].val`. -/
def commit_edits (file : List Nat) (arr : Overlay) : List Nat :=
  arr.foldl (fun f kv => f.set kv.1 kv.2) file

/-- `save_changes()`: "No changes made" when the overlay is empty; otherwise,
on confirmation, copy the entries into an array, sort by key, write each value
at its key into the mapped file, `msync`, and clear the overlay. -/
def save_changes (file : List Nat) (ov : Overlay) (confirm : Bool) :
    SaveSignal × List Nat × Overlay :=
  if ovCount ov = 0 then (.nothingToSave, file, ov)
  else if confirm then
    (.saved, commit_edits file (entries_sorted_by_offset ov), [])
  else (.cancelled, file, ov)

instance : IsTotal (Nat × Nat) (fun a b => a.1 ≤ b.1) :=
  ⟨fun a b => Nat.le_total a.1 b.1⟩

instance : IsTrans (Nat × Nat) (fun a b => a.1 ≤ b.1) :=
  ⟨fun _ _ _ => Nat.le_trans⟩

theorem ovGet_eq_some_iff {ov : Overlay} (h : ovNodup ov) {key v : Nat} :
    ovGet ov key = some v ↔ (key, v) ∈ ov := by
  induction ov with
  | nil => simp [ovGet]
  | cons p rest ih =>
    obtain ⟨k0, v0⟩ := p
    simp only [ovNodup, ovKeys, List.map_cons, List.nodup_cons] at h
    by_cases hk : k0 = key
    · subst hk
      show (if k0 = k0 then some v0 else ovGet rest k0) = some v ↔
        (k0, v) ∈ (k0, v0) :: rest
      rw [if_pos rfl]
      simp only [List.mem_cons, Option.some_inj]
      constructor
      · intro hv
        exact Or.inl (by rw [hv])
      · rintro (h1 | h1)
        · rw [Prod.ext_iff] at h1
          exact h1.2.symm
        · exact absurd (List.mem_map_of_mem Prod.fst h1) h.1
    · show (if k0 = key then some v0 else ovGet rest key) = some v ↔
        (key, v) ∈ (k0, v0) :: rest
      rw [if_neg hk]
      rw [ih h.2]
      simp only [List.mem_cons]
      constructor
      · exact Or.inr
      · rintro (h1 | h1)
        · rw [Prod.ext_iff] at h1
          exact absurd h1.1.symm hk
        · exact h1

theorem commit_edits_getD_not_mem (arr : Overlay) :
    ∀ (file : List Nat) (off : Nat), off ∉ ovKeys arr →
      (commit_edits file arr).getD off 0 = file.getD off 0 := by
  induction arr with
  | nil => intro file off _; rfl
  | cons p rest ih =>
    intro file off h
    simp only [ovKeys, List.map_cons, List.mem_cons, not_or] at h
    show (commit_edits (file.set p.1 p.2) rest).getD off 0 = file.getD off 0
    rw [ih _ off (by simpa [ovKeys] using h.2)]
    rw [List.getD_eq_getElem?_getD,
      List.getElem?_set_ne (fun e => h.1 e.symm),
      ← List.getD_eq_getElem?_getD]

theorem commit_edits_getD (arr : Overlay) :
    ∀ (file : List Nat) (off : Nat), ovNodup arr → off < file.length →
      (commit_edits file arr).getD off 0 =
        (ovGet arr off).getD (file.getD off 0) := by
  induction arr with
  | nil => intro file off _ _; rfl
  | cons p rest ih =>
    intro file off hnd hoff
    obtain ⟨k0, v0⟩ := p
    simp only [ovNodup, ovKeys, List.map_cons, List.nodup_cons] at hnd
    show (commit_edits (file.set k0 v0) rest).getD off 0 = _
    by_cases hk : k0 = off
    · subst hk
      rw [commit_edits_getD_not_mem rest _ k0 hnd.1]
      have hset : (file.set k0 v0).getD k0 0 = v0 := by
        rw [List.getD_eq_getElem?_getD, List.getElem?_set_self hoff]
        rfl
      rw [hset]
      simp [ovGet]
    · rw [ih _ off hnd.2 (by rw [List.length_set]; exact hoff)]
      have hset : (file.set k0 v0).getD off 0 = file.getD off 0 := by
        rw [List.getD_eq_getElem?_getD, List.getElem?_set_ne hk,
          ← List.getD_eq_getElem?_getD]
      rw [hset]
      simp [ovGet, hk]

theorem entries_sorted_nodup {ov : Overlay} (hnd : ovNodup ov) :
    ovNodup (entries_sorted_by_offset ov) := by
  have hperm := List.perm_insertionSort (fun a b => a.1 ≤ b.1) ov
  exact ((hperm.map Prod.fst).symm).nodup hnd

theorem ovGet_entries_sorted {ov : Overlay} (hnd : ovNodup ov) (off v : Nat)
    (h : ovGet ov off = some v) :
    ovGet (entries_sorted_by_offset ov) off = some v := by
  have hperm := List.perm_insertionSort (fun a b => a.1 ≤ b.1) ov
  exact (ovGet_eq_some_iff (entries_sorted_nodup hnd)).mpr
    (hperm.mem_iff.mpr ((ovGet_eq_some_iff hnd).mp h))

/-- C3: with no pending edits `save_changes` signals "nothing to save" and
changes nothing; otherwise, after confirmation, it writes every overlay
entry's value at its offset — the entries applied in strictly ascending
offset order — and clears the overlay, so the pending count is zero and each
edited offset reads back its committed value. -/
theorem save_changes_spec (file : List Nat) (ov : Overlay) (confirm : Bool)
    (hnd : ovNodup ov) :
    (ovCount ov = 0 →
      save_changes file ov confirm = (SaveSignal.nothingToSave, file, ov)) ∧
    (ovCount ov ≠ 0 → confirm = true →
      (save_changes file ov confirm).1 = SaveSignal.saved ∧
      ovCount (save_changes file ov confirm).2.2 = 0 ∧
      List.Pairwise (fun a b => a.1 < b.1) (entries_sorted_by_offset ov) ∧
      (∀ off v, ovGet ov off = some v → off < file.length →
        (save_changes file ov confirm).2.1.getD off 0 = v)) := by
  constructor
  · intro h0
    rw [save_changes, if_pos h0]
  · intro h0 hc
    subst hc
    have hsave : save_changes file ov true =
        (SaveSignal.saved, commit_edits file (entries_sorted_by_offset ov), []) := by
      rw [save_changes, if_neg h0, if_pos rfl]
    refine ⟨by rw [hsave], by rw [hsave]; rfl, ?_, ?_⟩
    · have hsorted := List.sorted_insertionSort (fun a b => a.1 ≤ b.1) ov
      have hnd' := entries_sorted_nodup hnd
      have hne : List.Pairwise (fun a b : Nat × Nat => a.1 ≠ b.1)
          (entries_sorted_by_offset ov) := by
        rw [← List.pairwise_map (f := Prod.fst)]
        exact hnd'
      exact (hsorted.and hne).imp (fun hab => lt_of_le_of_ne hab.1 hab.2)
    · intro off v hv hoff
      rw [hsave]
      show (commit_edits file (entries_sorted_by_offset ov)).getD off 0 = v
      rw [commit_edits_getD _ file off (entries_sorted_nodup hnd) hoff,
        ovGet_entries_sorted hnd off v hv]
      rfl

/-- C3 witness: two out-of-order edits over "ABC" commit to their offsets and
empty the overlay. -/
theorem save_changes_spec_witness :
    ovNodup [((2 : Nat), (99 : Nat)), (0, 1)] ∧
    (ovCount [((2 : Nat), (99 : Nat)), (0, 1)] ≠ 0 ∧
     ((save_changes [65, 66, 67] [(2, 99), (0, 1)] true).1 = SaveSignal.saved ∧
      ovCount (save_changes [65, 66, 67] [(2, 99), (0, 1)] true).2.2 = 0 ∧
      List.Pairwise (fun a b => a.1 < b.1)
        (entries_sorted_by_offset [(2, 99), (0, 1)]) ∧
      (∀ off v, ovGet [(2, 99), (0, 1)] off = some v →
        off < ([65, 66, 67] : List Nat).length →
        (save_changes [65, 66, 67] [(2, 99), (0, 1)] true).2.1.getD off 0 = v))) :=
  ⟨by decide, by decide,
   (save_changes_spec [65, 66, 67] [(2, 99), (0, 1)] true (by decide)).2
     (by decide) rfl⟩

/-! ## Structural mutation commands (`insert_bytes` / `delete_bytes`) -/

/-- Outcome of the `insert_bytes` / `delete_bytes` commands. -/
inductive MutOutcome where
  | blocked                     -- pending edits: "Save changes before ..."
  | noop                        -- count clamps to zero: plain return
  | cancelled                   -- confirmation declined
  | ioError                     -- file_insert / file_delete failed
  | done (count : Nat) (newFile : List Nat)
deriving DecidableEq

/-- The insert clamp: `if(byteins > 1024) byteins = 1024`. -/
def ins_clamp (req : Nat) : Nat := if req > 1024 then 1024 else req

/-- The delete bound: `max_pos = app.fsize - del_offset`, capped at 1024. -/
def del_max_pos (fsize del_offset : Nat) : Nat :=
  if fsize - del_offset ≤ 1024 then fsize - del_offset else 1024

/-- The delete clamp: `if(bytedel > max_pos) bytedel = max_pos`. -/
def del_clamp (fsize del_offset req : Nat) : Nat :=
  if req > del_max_pos fsize del_offset then del_max_pos fsize del_offset
  else req

/-- `insert_bytes()`: refuses while edits are pending, clamps the requested
count to 1024, returns on a zero count, asks for confirmation, then runs
`file_insert` at the cursor offset (`req` is the popup answer). -/
def insert_bytes (file : List Nat) (ov : Overlay) (ins_offset req : Nat)
    (confirm : Bool) : MutOutcome :=
  if ovCount ov > 0 then .blocked
  else if ins_clamp req = 0 then .noop
  else if confirm then
    match file_insert file ins_offset (ins_clamp req) with
    | some f => .done (ins_clamp req) f
    | none => .ioError
  else .cancelled

/-- `delete_bytes()`: refuses while edits are pending, clamps the requested
count to `min(1024, fsize - del_offset)`, returns on a zero count, asks for
confirmation, then runs `file_delete` at the cursor offset. -/
def delete_bytes (file : List Nat) (ov : Overlay) (del_offset req : Nat)
    (confirm : Bool) : MutOutcome :=
  if ovCount ov > 0 then .blocked
  else if del_clamp file.length del_offset req = 0 then .noop
  else if confirm then
    match file_delete file del_offset (del_clamp file.length del_offset req) with
    | some f => .done (del_clamp file.length del_offset req) f
    | none => .ioError
  else .cancelled

/-- C8: with pending edits both commands refuse without touching the file;
otherwise the count is clamped to at most 1024 for insert and at most
`min(1024, size - offset)` for delete, and a zero count performs nothing. -/
theorem structural_mutation_guards (file : List Nat) (ov : Overlay)
    (off req : Nat) (confirm : Bool) :
    (ovCount ov > 0 →
      insert_bytes file ov off req confirm = MutOutcome.blocked ∧
      delete_bytes file ov off req confirm = MutOutcome.blocked) ∧
    (∀ n f, insert_bytes file ov off req confirm = MutOutcome.done n f →
      1 ≤ n ∧ n ≤ 1024 ∧ file_insert file off n = some f) ∧
    (∀ n f, delete_bytes file ov off req confirm = MutOutcome.done n f →
      1 ≤ n ∧ n ≤ 1024 ∧ n ≤ file.length - off ∧
      file_delete file off n = some f) ∧
    (req = 0 → ovCount ov = 0 →
      insert_bytes file ov off req confirm = MutOutcome.noop ∧
      delete_bytes file ov off req confirm = MutOutcome.noop) := by
  refine ⟨?_, ?_, ?_, ?_⟩
  · intro hpend
    constructor
    · rw [insert_bytes, if_pos hpend]
    · rw [delete_bytes, if_pos hpend]
  · intro n f hdone
    rw [insert_bytes] at hdone
    split_ifs at hdone with h1 h2 h3
    · cases hfi : file_insert file off (ins_clamp req) with
      | none => rw [hfi] at hdone; exact absurd hdone (by simp)
      | some f' =>
        rw [hfi] at hdone
        simp only [MutOutcome.done.injEq] at hdone
        refine ⟨by omega, ?_, ?_⟩
        · rw [← hdone.1]
          unfold ins_clamp
          split_ifs <;> omega
        · rw [← hdone.1, ← hdone.2]
          exact hfi
  · intro n f hdone
    rw [delete_bytes] at hdone
    split_ifs at hdone with h1 h2 h3
    · cases hfd : file_delete file off (del_clamp file.length off req) with
      | none => rw [hfd] at hdone; exact absurd hdone (by simp)
      | some f' =>
        rw [hfd] at hdone
        simp only [MutOutcome.done.injEq] at hdone
        have hcl : del_clamp file.length off req ≤ 1024 ∧
            del_clamp file.length off req ≤ file.length - off := by
          unfold del_clamp del_max_pos
          split_ifs <;> omega
        refine ⟨by omega, ?_, ?_, ?_⟩
        · rw [← hdone.1]; exact hcl.1
        · rw [← hdone.1]; exact hcl.2
        · rw [← hdone.1, ← hdone.2]; exact hfd
  · intro hreq hcount
    constructor
    · rw [insert_bytes, if_neg (by omega), if_pos (by rw [hreq]; rfl)]
    · rw [delete_bytes, if_neg (by omega),
        if_pos (by rw [hreq]; unfold del_clamp; split_ifs <;> omega)]

/-- C8 witness: a pending edit blocks both commands; with an empty overlay a
3-byte insert at offset 1 of "\x01\x02" goes through. -/
theorem structural_mutation_guards_witness :
    (insert_bytes [1, 2] [(0, 5)] 0 3 true = MutOutcome.blocked ∧
     delete_bytes [1, 2] [(0, 5)] 0 3 true = MutOutcome.blocked) ∧
    (1 ≤ 3 ∧ 3 ≤ 1024 ∧ file_insert [1, 2] 1 3 = some [1, 0, 0, 0, 2]) :=
  ⟨(structural_mutation_guards [1, 2] [(0, 5)] 0 3 true).1 (by decide),
   (structural_mutation_guards [1, 2] [] 1 3 true).2.1 3 [1, 0, 0, 0, 2]
     (by decide)⟩

end Gex
